import Mathlib

/-!
Verification of the ChatAds n8n node (`src/nodes/ChatAds/ChatAds.node.ts`).

The development shallowly embeds the node's payload-building pipeline and its
bounded-concurrency dispatch loop:

* JSON values (`IDataObject` contents) are modelled by `JVal`; JavaScript
  objects are association lists in insertion order, with assignment modelled
  by `objInsert` (replace-in-place when the key exists, append otherwise),
  matching JS property-update semantics.
* JS numbers are modelled by `Int` (the claims under study only exercise
  integral values); `String(n)` becomes `toString`.
* `String.prototype.trim` is modelled by `jsTrim`, dropping the common
  whitespace characters from both ends.
* Fallible code (`throw new NodeOperationError(...)`) becomes
  `Except NodeError`; the error options object `{ itemIndex }` becomes the
  `itemIndex` field.
* The `async` dispatch loop of `execute` becomes a labelled transition system
  (`DStep`) over `DState`: task settlement order is a nondeterministic choice,
  so theorems quantified over reachable states cover every completion order.
* External collaborators are parameters: `JSON.parse` is a `String → Option JVal`
  oracle, the HTTP helper is a `HttpRequest → Except NodeError JVal` oracle.
-/

namespace ChatAdsNode

/-- JSON-ish runtime values held by an `IDataObject`. -/
inductive JVal where
  | null
  | bool (b : Bool)
  | num (n : Int)
  | str (s : String)
  | arr (elems : List JVal)
  | obj (fields : List (String × JVal))

instance : Inhabited JVal := ⟨JVal.null⟩

/-- A JavaScript object: fields in insertion order. -/
abbrev JObj := List (String × JVal)

/-- Model of `NodeOperationError` / `NodeApiError` payload-relevant content. -/
structure NodeError where
  message : String
  itemIndex : Option Nat := none
  description : Option String := none
  httpCode : Option String := none
  causeMsg : Option String := none
deriving DecidableEq

/-- `new NodeOperationError(context.getNode(), msg, { itemIndex })`. -/
def opError (msg : String) (idx : Nat) : NodeError :=
  { message := msg, itemIndex := some idx }

/-- Common whitespace recognized by `String.prototype.trim`. -/
def isJsWhitespace (c : Char) : Bool :=
  c == ' ' || c == '\t' || c == '\n' || c == '\r' || c == '\x0b' || c == '\x0c'

/-- Model of `value.trim()`: drop whitespace from both ends. -/
def jsTrim (s : String) : String :=
  String.mk (((s.toList.dropWhile isJsWhitespace).reverse.dropWhile isJsWhitespace).reverse)

/-- Model of `key.toLowerCase()`: lower-case every character (the keys in
play are ASCII). -/
def jsToLower (s : String) : String :=
  String.mk (s.toList.map Char.toLower)

/-- `const DEFAULT_ENDPOINT = '/v1/chatads/messages'`. -/
def DEFAULT_ENDPOINT : String := "/v1/chatads/messages"

/-- The `OPTIONAL_FIELDS` set, in source order. -/
def OPTIONAL_FIELDS : List String :=
  ["pageUrl", "pageTitle", "referrer", "address", "email", "type", "domain",
   "ip", "reason", "company", "name", "country", "override_parsing",
   "response_quality"]

/-- The `FIELD_ALIASES` record: lowercase alternate spelling to canonical name. -/
def FIELD_ALIASES : List (String × String) :=
  [("pageurl", "pageUrl"), ("page_url", "pageUrl"),
   ("pagetitle", "pageTitle"), ("page_title", "pageTitle"),
   ("overrideparsing", "override_parsing"), ("override_parsing", "override_parsing"),
   ("responsequality", "response_quality"), ("response_quality", "response_quality")]

/-- `RESERVED_PAYLOAD_KEYS = new Set(['message', ...OPTIONAL_FIELDS])`. -/
def RESERVED_PAYLOAD_KEYS : List String := "message" :: OPTIONAL_FIELDS

/-- `FIELD_ALIASES[key]` property access. -/
def aliasLookup (key : String) : Option String :=
  (FIELD_ALIASES.find? (fun p => p.1 == key)).map Prod.snd

/-- `normalizeFieldKey = (key) => FIELD_ALIASES[key.toLowerCase()] ?? key`. -/
def normalizeFieldKey (key : String) : String :=
  (aliasLookup (jsToLower key)).getD key

/-- `normalizeOptionalField`: canonical name when it is an optional field. -/
def normalizeOptionalField (key : String) : Option String :=
  if OPTIONAL_FIELDS.contains (normalizeFieldKey key) then
    some (normalizeFieldKey key)
  else none

/-- `normalizeJsonPath = (path) => path.startsWith('/') ? path : `/${path}``. -/
def normalizeJsonPath (path : String) : String :=
  if path.startsWith "/" then path else "/" ++ path

/-- `baseUrl.replace(/\/+$/, '')`: strip trailing slashes. -/
def stripTrailingSlashes (s : String) : String :=
  String.mk (s.toList.reverse.dropWhile (fun c => c == '/')).reverse

/-- Property lookup `o[k]` on a JS object. -/
def lookupJ (o : JObj) (k : String) : Option JVal :=
  (o.find? (fun p => p.1 == k)).map Prod.snd

/-- Property assignment `o[k] = v` on a JS object: replace in place when the
key exists (JS object keys are unique, so replacing the first occurrence is
exact), append otherwise (JS insertion-order semantics). -/
def objInsert : JObj → String → JVal → JObj
  | [], k, v => [(k, v)]
  | p :: rest, k, v => if p.1 == k then (k, v) :: rest else p :: objInsert rest k v

/-- `rawValue === undefined || rawValue === null || rawValue === ''`
(JSON-derived objects carry no `undefined`). -/
def isDroppedValue (v : JVal) : Bool :=
  match v with
  | .null => true
  | .str s => s == ""
  | _ => false

/-- `value === null` (together with the unrepresentable `undefined`). -/
def isNullish (v : JVal) : Bool :=
  match v with
  | .null => true
  | _ => false

/-- `parseJsonObject`: strings are trimmed then parsed by the external
`JSON.parse` oracle; the result (or a non-string input) must be a plain
object (not `null`, not an array). -/
def parseJsonObject (parse : String → Option JVal) (value : JVal)
    (fieldName : String) (itemIndex : Nat) : Except NodeError JObj :=
  match value with
  | .str s =>
      if jsTrim s == "" then .ok []
      else
        match parse (jsTrim s) with
        | none => .error (opError (fieldName ++ " must be valid JSON") itemIndex)
        | some parsed =>
            match parsed with
            | .obj fields => .ok fields
            | _ => .error (opError (fieldName ++ " must be a JSON object") itemIndex)
  | .obj fields => .ok fields
  | _ => .error (opError (fieldName ++ " must be a JSON object") itemIndex)

/-- `coerceToString`: strings pass through, numbers and booleans are
stringified, anything else is an error. -/
def coerceToString (source key : String) (value : JVal) (itemIndex : Nat) :
    Except NodeError String :=
  match value with
  | .str s => .ok s
  | .num n => .ok (toString n)
  | .bool b => .ok (if b then "true" else "false")
  | _ => .error (opError (source ++ " field \"" ++ key ++ "\" must be a string or primitive")
      itemIndex)

/-- `ensureMessage`: the value must be a string whose trimmed form is
non-empty; the trimmed form is returned. `none` models a missing property
(JS `undefined`), which fails the string check. -/
def ensureMessage (value : Option JVal) (itemIndex : Nat) : Except NodeError String :=
  match value with
  | some (.str s) =>
      if jsTrim s == "" then
        .error (opError "Field \"message\" cannot be empty" itemIndex)
      else .ok (jsTrim s)
  | _ => .error (opError "Field \"message\" must be provided as a string" itemIndex)

/-- `assertNoReservedConflicts`: keys of `extras` whose alias-normalized form
is reserved are conflicts; any conflict fails with a message listing all of
them, comma-joined. -/
def reservedConflicts (extras : JObj) : List String :=
  (extras.map Prod.fst).filter
    (fun key => RESERVED_PAYLOAD_KEYS.contains (normalizeFieldKey key))

def assertNoReservedConflicts (source : String) (extras : JObj) (itemIndex : Nat) :
    Except NodeError Unit :=
  if (reservedConflicts extras).length > 0 then
    .error (opError
      (source ++ " contains reserved keys: " ++ String.intercalate ", " (reservedConflicts extras))
      itemIndex)
  else .ok ()

/-- One iteration of the `for (const [rawKey, rawValue] of Object.entries(input))`
loop inside `buildPayloadFromObject`, acting on the `(payload, extras)` pair. -/
def buildLoopStep (source : String) (itemIndex : Nat) (acc : JObj × JObj)
    (kv : String × JVal) : Except NodeError (JObj × JObj) :=
  if kv.1 == "message" then .ok acc
  else if isDroppedValue kv.2 then .ok acc
  else
    match normalizeOptionalField kv.1 with
    | some optionalKey =>
        if optionalKey == "override_parsing" then
          match kv.2 with
          | .bool b => .ok (objInsert acc.1 optionalKey (.bool b), acc.2)
          | _ => .error (opError (source ++ " field \"" ++ kv.1 ++ "\" must be a boolean")
              itemIndex)
        else
          match coerceToString source kv.1 kv.2 itemIndex with
          | .ok s => .ok (objInsert acc.1 optionalKey (.str s), acc.2)
          | .error e => .error e
    | none => .ok (acc.1, objInsert acc.2 kv.1 kv.2)

/-- `Object.assign(payload, extras)`. -/
def mergeExtras (payload extras : JObj) : JObj :=
  extras.foldl (fun p kv => objInsert p kv.1 kv.2) payload

/-- `buildPayloadFromObject`: validate `message`, classify every other key as
optional (validated/coerced into `payload`) or extension (collected into
`extras`), reject reserved-key conflicts among the extras, then merge. -/
def buildPayloadFromObject (input : JObj) (source : String) (itemIndex : Nat) :
    Except NodeError JObj :=
  match ensureMessage (lookupJ input "message") itemIndex with
  | .error e => .error e
  | .ok message =>
      match input.foldlM (buildLoopStep source itemIndex)
          ([("message", JVal.str message)], ([] : JObj)) with
      | .error e => .error e
      | .ok acc =>
          match assertNoReservedConflicts source acc.2 itemIndex with
          | .error e => .error e
          | .ok _ => .ok (mergeExtras acc.1 acc.2)

/-- One iteration of the `for (const [field, value] of Object.entries(additionalFields))`
loop of structured mode (lines 508-561): empty/null values are skipped, the
`extraFieldsJson` entry is parsed, conflict-checked and merged (null-valued or
`message`-named extra keys skipped), every other field must be a known
optional field and is validated per its type. -/
def buildStructuredStep (parse : String → Option JVal) (itemIndex : Nat)
    (constructed : JObj) (kv : String × JVal) : Except NodeError JObj :=
  if isDroppedValue kv.2 then .ok constructed
  else if kv.1 == "extraFieldsJson" then
    match parseJsonObject parse kv.2 "Extra fields JSON" itemIndex with
    | .error e => .error e
    | .ok parsedExtras =>
        match assertNoReservedConflicts "Extra fields JSON" parsedExtras itemIndex with
        | .error e => .error e
        | .ok _ =>
            .ok (parsedExtras.foldl (fun c ekv =>
              if isNullish ekv.2 then c
              else if ekv.1 == "message" then c
              else objInsert c ekv.1 ekv.2) constructed)
  else
    match normalizeOptionalField kv.1 with
    | none => .error (opError ("Field \"" ++ kv.1 ++ "\" is not supported") itemIndex)
    | some normalizedKey =>
        if normalizedKey == "override_parsing" then
          match kv.2 with
          | .bool b => .ok (objInsert constructed normalizedKey (.bool b))
          | _ => .error (opError ("Field \"" ++ kv.1 ++ "\" must be provided as a boolean")
              itemIndex)
        else
          match coerceToString "Additional fields" kv.1 kv.2 itemIndex with
          | .error e => .error e
          | .ok s => .ok (objInsert constructed normalizedKey (.str s))

/-- The `constructed` object of structured mode, starting from `{ message }`. -/
def buildConstructed (parse : String → Option JVal) (message : String)
    (additionalFields : JObj) (itemIndex : Nat) : Except NodeError JObj :=
  additionalFields.foldlM (buildStructuredStep parse itemIndex)
    [("message", JVal.str message)]

/-- Structured-mode body: validate the `message` parameter, fold the
additional fields into `constructed`, then run `buildPayloadFromObject`. -/
def buildStructuredBody (parse : String → Option JVal) (rawMessage : JVal)
    (additionalFields : JObj) (itemIndex : Nat) : Except NodeError JObj :=
  match ensureMessage (some rawMessage) itemIndex with
  | .error e => .error e
  | .ok message =>
      match buildConstructed parse message additionalFields itemIndex with
      | .error e => .error e
      | .ok constructed =>
          buildPayloadFromObject constructed "Additional fields" itemIndex

/-- The per-item node parameters read by `processItem` via `getNodeParameter`. -/
structure ItemParams where
  operation : String
  endpoint : String
  jsonParameters : Bool
  bodyJson : JVal
  message : JVal
  additionalFields : JObj

instance : Inhabited ItemParams :=
  ⟨{ operation := "analyze", endpoint := "", jsonParameters := false,
     bodyJson := .null, message := .null, additionalFields := [] }⟩

/-- The HTTP request handed to `this.helpers.httpRequestWithAuthentication`. -/
structure HttpRequest where
  method : String
  url : String
  body : JObj
  json : Bool
  timeoutMs : Int

/-- `(this.getNodeParameter('endpoint', itemIndex) as string) || DEFAULT_ENDPOINT`
followed by `normalizeJsonPath`, appended to the base URL. -/
def requestUrl (baseUrl : String) (endpoint : String) : String :=
  baseUrl ++ normalizeJsonPath (if endpoint == "" then DEFAULT_ENDPOINT else endpoint)

/-- The request body of one item: raw-JSON mode parses `bodyJson` and runs
it through `buildPayloadFromObject`; structured mode runs
`buildStructuredBody`. -/
def processItemBody (parse : String → Option JVal) (p : ItemParams) (itemIndex : Nat) :
    Except NodeError JObj :=
  if p.jsonParameters then
    match parseJsonObject parse p.bodyJson "Body JSON" itemIndex with
    | .error e => .error e
    | .ok parsedBody => buildPayloadFromObject parsedBody "Body JSON" itemIndex
  else
    buildStructuredBody parse p.message p.additionalFields itemIndex

/-- The synchronous part of `processItem` up to (and excluding) the network
call: operation check, endpoint normalization, payload building in raw-JSON
or structured mode. Returns the request that would be issued. -/
def processItemBuild (baseUrl : String) (timeoutMs : Int)
    (parse : String → Option JVal) (p : ItemParams) (itemIndex : Nat) :
    Except NodeError HttpRequest :=
  if p.operation ≠ "analyze" then
    .error (opError ("Unsupported operation \"" ++ p.operation ++ "\"") itemIndex)
  else
    match processItemBody parse p itemIndex with
    | .error e => .error e
    | .ok body =>
        .ok { method := "POST", url := requestUrl baseUrl p.endpoint, body := body,
              json := true, timeoutMs := timeoutMs }

/-- Running one item's task against the network oracle: the first component
records the HTTP request actually issued (`none` when validation failed before
the call), the second the task's terminal result before mode handling. -/
def processItemRun (baseUrl : String) (timeoutMs : Int)
    (parse : String → Option JVal) (net : HttpRequest → Except NodeError JVal)
    (p : ItemParams) (itemIndex : Nat) :
    Option HttpRequest × Except NodeError JVal :=
  match processItemBuild baseUrl timeoutMs parse p itemIndex with
  | .error e => (none, .error e)
  | .ok req => (some req, net req)

/-- `buildErrorPayload` restricted to the `NodeApiError`/`NodeOperationError`
branch of the source (every error in this model is one of those): message,
then optional description, httpCode and cause. -/
def buildErrorPayload (e : NodeError) : JObj :=
  let base : JObj := [("message", JVal.str e.message)]
  let base := match e.description with
    | some d => base ++ [("description", JVal.str d)]
    | none => base
  let base := match e.httpCode with
    | some h => base ++ [("httpCode", JVal.str h)]
    | none => base
  match e.causeMsg with
  | some c => base ++ [("cause", JVal.str c)]
  | none => base

/-- One entry of the `responses` array (`INodeExecutionData` with `pairedItem`). -/
structure OutRec where
  json : JVal
  pairedItem : Nat

/-- Success slot content: the verbatim response with `pairedItem: { item: itemIndex }`. -/
def successRecord (itemIndex : Nat) (resp : JVal) : OutRec :=
  { json := resp, pairedItem := itemIndex }

/-- Tolerant-mode error slot content: the structured error record. -/
def errorRecord (itemIndex : Nat) (e : NodeError) : OutRec :=
  { json := .obj (buildErrorPayload e), pairedItem := itemIndex }

/-- `new NodeApiError(this.getNode(), error, { itemIndex })` thrown in
fail-fast mode. -/
structure ThrownError where
  inner : NodeError
  itemIndex : Nat

/-- The `chatAdsApi` credentials as used by `execute`. -/
structure Credentials where
  baseUrl : String

/-- The whole configuration of one `execute` invocation; `parse` and `net`
are the external `JSON.parse` and HTTP oracles. -/
structure BatchConfig where
  credentials : Option Credentials
  maxConcurrencyParam : Option Int
  timeoutSecondsParam : Option Int
  continueOnFail : Bool
  items : List ItemParams
  parse : String → Option JVal
  net : HttpRequest → Except NodeError JVal

/-- `Math.max(5000, Math.floor(timeoutSeconds * 1000))` with the
`getNodeParameter` default of 30; on integral inputs `Math.floor` is the
identity. -/
def timeoutMsOf (timeoutSecondsParam : Option Int) : Int :=
  max 5000 (timeoutSecondsParam.getD 30 * 1000)

/-- `Math.max(1, Math.min(50, Math.floor(maxConcurrency) || 1))` with the
`getNodeParameter` default of 4; `Math.floor(m) || 1` maps the falsy 0 to 1. -/
def concurrencyLimitOf (maxConcurrencyParam : Option Int) : Int :=
  let m := maxConcurrencyParam.getD 4
  max 1 (min 50 (if m = 0 then 1 else m))

/-- The state `execute` runs the dispatch loop with, after the credential
checks and parameter clamping succeeded. -/
structure RunCfg where
  baseUrl : String
  timeoutMs : Int
  concurrencyLimit : Nat
  continueOnFail : Bool
  items : List ItemParams
  parse : String → Option JVal
  net : HttpRequest → Except NodeError JVal

/-- Number of input items. -/
def RunCfg.N (c : RunCfg) : Nat := c.items.length

/-- Terminal result of item `i`'s task before mode handling: validation or
network error, or the verbatim response. -/
def RunCfg.outcome (c : RunCfg) (i : Nat) : Except NodeError JVal :=
  (processItemRun c.baseUrl c.timeoutMs c.parse c.net (c.items.getD i default) i).2

/-- What task `i` writes into `responses[i]` when it settles: its verbatim
success record; in tolerant mode a structured error record on failure; in
fail-fast mode a failing task writes nothing (it rejects instead). -/
def slotValue (c : RunCfg) (i : Nat) : Option OutRec :=
  match c.outcome i with
  | .ok resp => some (successRecord i resp)
  | .error e => if c.continueOnFail then some (errorRecord i e) else none

/-- The preamble of `execute` (lines 452-472): credential presence check,
trailing-slash stripping, non-empty base URL check, parameter clamping. -/
def executeSetup (b : BatchConfig) : Except NodeError RunCfg :=
  match b.credentials with
  | none => .error { message := "Missing ChatAds API credentials" }
  | some creds =>
      if stripTrailingSlashes creds.baseUrl == "" then
        .error { message := "Base URL is missing in the credentials" }
      else
        .ok { baseUrl := stripTrailingSlashes creds.baseUrl,
              timeoutMs := timeoutMsOf b.timeoutSecondsParam,
              concurrencyLimit := (concurrencyLimitOf b.maxConcurrencyParam).toNat,
              continueOnFail := b.continueOnFail,
              items := b.items,
              parse := b.parse,
              net := b.net }

/-- Control position of the `execute` coroutine in its dispatch loop. -/
inductive MainPos where
  | atLoop (k : Nat)
  | inRace (k : Nat)
  | atAll
  | returned (out : List OutRec)
  | thrown (e : ThrownError)

/-- State of one `execute` run: the coroutine position, the `executing`
array (task indices of still-pending promises), the pre-sized `responses`
array, the history of task launches, and the first observed rejection. -/
structure DState where
  pos : MainPos
  executing : List Nat
  responses : List (Option OutRec)
  history : List Nat
  pendingErr : Option ThrownError

/-- Initial state: `responses = new Array(items.length)`, nothing launched. -/
def initState (c : RunCfg) : DState :=
  { pos := .atLoop 0, executing := [], responses := List.replicate c.N none,
    history := [], pendingErr := none }

/-- Effect of one loop iteration (lines 599-612): start task `k`, push its
promise, and suspend on `Promise.race` when the window has reached the
concurrency limit, else continue to the next iteration. -/
def launchEffect (c : RunCfg) (k : Nat) (s : DState) : DState :=
  { s with
      pos := if s.executing.length + 1 ≥ c.concurrencyLimit then .inRace k
        else .atLoop (k + 1),
      executing := s.executing ++ [k],
      history := s.history ++ [k] }

/-- Effect of task `i` settling: its `.finally` splices it out of `executing`,
a write-once update stores its slot value, and in fail-fast mode a failing
task records the first rejection. -/
def completeEffect (c : RunCfg) (i : Nat) (s : DState) : DState :=
  { s with
      executing := s.executing.erase i,
      responses := s.responses.set i (slotValue c i),
      pendingErr :=
        match c.outcome i, c.continueOnFail with
        | .error e, false => some (s.pendingErr.getD { inner := e, itemIndex := i })
        | _, _ => s.pendingErr }

/-- Small-step transition relation of the dispatch loop. Task settlement
(`complete`) is a nondeterministic choice among the in-flight tasks, so the
relation covers every completion order; `Promise.race` may resume the loop
after any settlement (`raceResolve`) or rethrow an observed rejection
(`raceReject`); `Promise.all` resolves once `executing` is drained or
rethrows an observed rejection. -/
inductive DStep (c : RunCfg) : DState → DState → Prop where
  | launch (s : DState) (k : Nat) :
      s.pos = .atLoop k → k < c.N → DStep c s (launchEffect c k s)
  | loopExit (s : DState) (k : Nat) :
      s.pos = .atLoop k → ¬ k < c.N → DStep c s { s with pos := .atAll }
  | complete (s : DState) (i : Nat) :
      i ∈ s.executing → DStep c s (completeEffect c i s)
  | raceResolve (s : DState) (k : Nat) :
      s.pos = .inRace k → s.executing.length < c.concurrencyLimit →
      DStep c s { s with pos := .atLoop (k + 1) }
  | raceReject (s : DState) (k : Nat) (e : ThrownError) :
      s.pos = .inRace k → s.pendingErr = some e → DStep c s { s with pos := .thrown e }
  | allResolve (s : DState) :
      s.pos = .atAll → s.executing = [] → s.pendingErr = none →
      DStep c s { s with pos := .returned (s.responses.filterMap id) }
  | allReject (s : DState) (e : ThrownError) :
      s.pos = .atAll → s.pendingErr = some e → DStep c s { s with pos := .thrown e }

/-- Reachability from the initial state of one `execute` run. -/
def Reaches (c : RunCfg) (s : DState) : Prop :=
  Relation.ReflTransGen (DStep c) (initState c) s

/-- The record task `i` would contribute in tolerant mode: the verbatim
success record or the structured error record. -/
def tolerantRecord (c : RunCfg) (i : Nat) : OutRec :=
  match c.outcome i with
  | .ok resp => successRecord i resp
  | .error e => errorRecord i e

/-- Inductive invariant of the dispatch loop, used to settle the
order-preservation, concurrency-bound and fail-fast claims. -/
structure DInv (c : RunCfg) (s : DState) : Prop where
  resp_len : s.responses.length = c.N
  exec_nodup : s.executing.Nodup
  exec_mem : ∀ i ∈ s.executing, i < s.history.length
  hist_eq : s.history = List.range s.history.length
  hist_le : s.history.length ≤ c.N
  exec_bound : s.executing.length ≤ c.concurrencyLimit
  pos_loop : ∀ k, s.pos = .atLoop k →
    s.history.length = k ∧ s.executing.length < c.concurrencyLimit ∧ k ≤ c.N
  pos_race : ∀ k, s.pos = .inRace k → s.history.length = k + 1
  pos_all : s.pos = .atAll → s.history.length = c.N
  slots : ∀ i, i < c.N →
    s.responses[i]? =
      some (if i < s.history.length ∧ i ∉ s.executing then slotValue c i else none)
  pend : ∀ e, s.pendingErr = some e →
    c.continueOnFail = false ∧ e.itemIndex < c.N ∧ c.outcome e.itemIndex = .error e.inner
  pos_thrown : ∀ e, s.pos = .thrown e →
    c.continueOnFail = false ∧ e.itemIndex < c.N ∧ c.outcome e.itemIndex = .error e.inner
  pos_ret : ∀ out, s.pos = .returned out →
    s.history.length = c.N ∧ s.executing = [] ∧ out = s.responses.filterMap id

/-- A `JSON.parse` oracle that is never consulted in the concrete runs below. -/
def pfNone : String → Option JVal := fun _ => none

/-- A network oracle answering every request with an empty object. -/
def netOkEmpty : HttpRequest → Except NodeError JVal := fun _ => .ok (.obj [])

/-- A structured-mode item whose message is valid. -/
def itemOkParams : ItemParams :=
  { operation := "analyze", endpoint := "", jsonParameters := false,
    bodyJson := .null, message := .str "hi", additionalFields := [] }

/-- A structured-mode item whose message is empty, so payload building fails. -/
def itemBadParams : ItemParams :=
  { itemOkParams with message := .str "" }

/-- Fail-fast run with window 2: a healthy slow item followed by an item
that fails validation. -/
def cfgFailFast : RunCfg :=
  { baseUrl := "https://api.example.com", timeoutMs := 30000, concurrencyLimit := 2,
    continueOnFail := false, items := [itemOkParams, itemBadParams],
    parse := pfNone, net := netOkEmpty }

/-- The state of `cfgFailFast` after launching items 0 and 1, letting the
failing item 1 settle first, and letting `Promise.race` rethrow its
rejection, while item 0 is still in flight. -/
def failFastThrownState : DState :=
  completeEffect cfgFailFast 1
    (launchEffect cfgFailFast 1 (launchEffect cfgFailFast 0 (initState cfgFailFast)))

/-- The wrapped error thrown for the failing item of `cfgFailFast`. -/
def failFastError : ThrownError :=
  { inner := opError "Field \"message\" cannot be empty" 1, itemIndex := 1 }

/-- The `cfgFailFast` state after `Promise.race` rethrows item 1's rejection
while item 0 is still in flight. -/
def failFastFinalState : DState :=
  { failFastThrownState with pos := .thrown failFastError }

/-- Tolerant run over a single healthy item with window 1. -/
def cfgTolOne : RunCfg :=
  { baseUrl := "https://api.example.com", timeoutMs := 30000, concurrencyLimit := 1,
    continueOnFail := true, items := [itemOkParams], parse := pfNone, net := netOkEmpty }

/-- A zero-item batch with usable credentials. -/
def emptyBatchConfig : BatchConfig :=
  { credentials := some { baseUrl := "https://app.getchatads.com" },
    maxConcurrencyParam := none, timeoutSecondsParam := none,
    continueOnFail := false, items := [], parse := pfNone, net := netOkEmpty }

/-- A zero-item batch whose configured base URL is the non-empty string "/",
which strips to the empty string. -/
def slashBatchConfig : BatchConfig :=
  { emptyBatchConfig with credentials := some { baseUrl := "/" } }

/-- A 5001-character message with no whitespace. -/
def bigMessage : String := String.mk (List.replicate 5001 'a')

/-! ### Error attribution: every payload-building error carries its item index -/

theorem ensureMessage_error_idx (v : Option JVal) (idx : Nat) (e : NodeError)
    (h : ensureMessage v idx = .error e) : e.itemIndex = some idx := by
  unfold ensureMessage at h
  split at h
  · split at h
    · cases h; rfl
    · exact Except.noConfusion h
  · cases h
    rfl

theorem coerceToString_error_idx (source key : String) (v : JVal) (idx : Nat) (e : NodeError)
    (h : coerceToString source key v idx = .error e) : e.itemIndex = some idx := by
  unfold coerceToString at h
  split at h <;> first
    | exact Except.noConfusion h
    | (cases h; rfl)

theorem parseJsonObject_error_idx (parse : String → Option JVal) (v : JVal)
    (fieldName : String) (idx : Nat) (e : NodeError)
    (h : parseJsonObject parse v fieldName idx = .error e) : e.itemIndex = some idx := by
  unfold parseJsonObject at h
  split at h
  · split at h
    · exact Except.noConfusion h
    · split at h
      · cases h; rfl
      · split at h
        · exact Except.noConfusion h
        · cases h; rfl
  · exact Except.noConfusion h
  · cases h; rfl

theorem assertNoReservedConflicts_error_idx (source : String) (extras : JObj) (idx : Nat)
    (e : NodeError) (h : assertNoReservedConflicts source extras idx = .error e) :
    e.itemIndex = some idx := by
  unfold assertNoReservedConflicts at h
  split at h
  · cases h; rfl
  · exact Except.noConfusion h

theorem buildLoopStep_error_idx (source : String) (idx : Nat) (acc : JObj × JObj)
    (kv : String × JVal) (e : NodeError)
    (h : buildLoopStep source idx acc kv = .error e) : e.itemIndex = some idx := by
  unfold buildLoopStep at h
  split at h
  · exact Except.noConfusion h
  · split at h
    · exact Except.noConfusion h
    · split at h
      · split at h
        · split at h
          · exact Except.noConfusion h
          · cases h; rfl
        · split at h
          · exact Except.noConfusion h
          · rename_i hc
            cases h
            exact coerceToString_error_idx _ _ _ _ _ hc
      · exact Except.noConfusion h

theorem foldlM_error_idx {α : Type} (f : α → String × JVal → Except NodeError α)
    (idx : Nat) (hf : ∀ b a e, f b a = .error e → e.itemIndex = some idx) :
    ∀ (l : JObj) (b : α) (e : NodeError),
      l.foldlM f b = .error e → e.itemIndex = some idx := by
  intro l
  induction l with
  | nil => intro b e h; exact Except.noConfusion h
  | cons a l ih =>
      intro b e h
      rw [List.foldlM_cons] at h
      cases hfa : f b a with
      | error e1 =>
          rw [hfa] at h
          cases h
          exact hf b a _ hfa
      | ok b1 =>
          rw [hfa] at h
          exact ih b1 e h

theorem buildPayloadFromObject_error_idx (input : JObj) (source : String) (idx : Nat)
    (e : NodeError) (h : buildPayloadFromObject input source idx = .error e) :
    e.itemIndex = some idx := by
  unfold buildPayloadFromObject at h
  split at h
  · cases h
    rename_i hm
    exact ensureMessage_error_idx _ _ _ hm
  · split at h
    · cases h
      rename_i hf
      exact foldlM_error_idx _ idx (fun b a e1 hba => buildLoopStep_error_idx _ _ _ _ _ hba)
        _ _ _ hf
    · split at h
      · cases h
        rename_i hc
        exact assertNoReservedConflicts_error_idx _ _ _ _ hc
      · exact Except.noConfusion h

theorem buildStructuredStep_error_idx (parse : String → Option JVal) (idx : Nat)
    (constructed : JObj) (kv : String × JVal) (e : NodeError)
    (h : buildStructuredStep parse idx constructed kv = .error e) :
    e.itemIndex = some idx := by
  unfold buildStructuredStep at h
  split at h
  · exact Except.noConfusion h
  · split at h
    · split at h
      · cases h
        rename_i hp
        exact parseJsonObject_error_idx _ _ _ _ _ hp
      · split at h
        · cases h
          rename_i hc
          exact assertNoReservedConflicts_error_idx _ _ _ _ hc
        · exact Except.noConfusion h
    · split at h
      · cases h; rfl
      · split at h
        · split at h
          · exact Except.noConfusion h
          · cases h; rfl
        · split at h
          · cases h
            rename_i hc
            exact coerceToString_error_idx _ _ _ _ _ hc
          · exact Except.noConfusion h

theorem buildConstructed_error_idx (parse : String → Option JVal) (message : String)
    (additionalFields : JObj) (idx : Nat) (e : NodeError)
    (h : buildConstructed parse message additionalFields idx = .error e) :
    e.itemIndex = some idx :=
  foldlM_error_idx _ idx (fun _ _ _ hba => buildStructuredStep_error_idx _ _ _ _ _ hba)
    _ _ _ h

theorem buildStructuredBody_error_idx (parse : String → Option JVal) (rawMessage : JVal)
    (additionalFields : JObj) (idx : Nat) (e : NodeError)
    (h : buildStructuredBody parse rawMessage additionalFields idx = .error e) :
    e.itemIndex = some idx := by
  unfold buildStructuredBody at h
  split at h
  · cases h
    rename_i hm
    exact ensureMessage_error_idx _ _ _ hm
  · split at h
    · cases h
      rename_i hc
      exact buildConstructed_error_idx _ _ _ _ _ hc
    · exact buildPayloadFromObject_error_idx _ _ _ _ h

theorem processItemBody_error_idx (parse : String → Option JVal) (p : ItemParams)
    (idx : Nat) (e : NodeError) (h : processItemBody parse p idx = .error e) :
    e.itemIndex = some idx := by
  unfold processItemBody at h
  split at h
  · split at h
    · rename_i hp
      cases h
      exact parseJsonObject_error_idx _ _ _ _ _ hp
    · exact buildPayloadFromObject_error_idx _ _ _ _ h
  · exact buildStructuredBody_error_idx _ _ _ _ _ h

theorem processItemBuild_error_idx (baseUrl : String) (timeoutMs : Int)
    (parse : String → Option JVal) (p : ItemParams) (idx : Nat) (e : NodeError)
    (h : processItemBuild baseUrl timeoutMs parse p idx = .error e) :
    e.itemIndex = some idx := by
  unfold processItemBuild at h
  split at h
  · cases h; rfl
  · split at h
    · rename_i hbody
      cases h
      exact processItemBody_error_idx _ _ _ _ hbody
    · exact Except.noConfusion h

/-- **C4.** Whenever payload building fails for an item (malformed JSON body,
non-object body, wrong field type, missing or empty message, reserved-key
conflict, and the remaining build-time checks), the thrown error carries that
item's index, and `processItemRun` issues no HTTP request for the item: the
network call is unreachable on the validation-failure path. -/
theorem build_failure_no_network (baseUrl : String) (timeoutMs : Int)
    (parse : String → Option JVal) (net : HttpRequest → Except NodeError JVal)
    (p : ItemParams) (idx : Nat) (e : NodeError)
    (h : processItemBuild baseUrl timeoutMs parse p idx = .error e) :
    e.itemIndex = some idx ∧
    (processItemRun baseUrl timeoutMs parse net p idx).1 = none ∧
    (processItemRun baseUrl timeoutMs parse net p idx).2 = .error e := by
  refine ⟨processItemBuild_error_idx _ _ _ _ _ _ h, ?_, ?_⟩ <;>
    simp [processItemRun, h]

/-! ### Association-list object lemmas -/

theorem lookupJ_nil (key : String) : lookupJ [] key = none := rfl

theorem lookupJ_cons (p : String × JVal) (l : JObj) (key : String) :
    lookupJ (p :: l) key = if p.1 = key then some p.2 else lookupJ l key := by
  unfold lookupJ
  rw [List.find?_cons]
  by_cases h : p.1 = key
  · have hb : (p.1 == key) = true := by simpa using h
    rw [hb]
    simp [h]
  · have hb : (p.1 == key) = false := by simpa using h
    rw [hb]
    simp [h]

theorem lookupJ_objInsert_self (o : JObj) (k : String) (v : JVal) :
    lookupJ (objInsert o k v) k = some v := by
  induction o with
  | nil => simp [objInsert, lookupJ_cons]
  | cons p rest ih =>
      by_cases hp : p.1 = k
      · simp [objInsert, hp, lookupJ_cons]
      · simp [objInsert, hp, lookupJ_cons, ih]

theorem lookupJ_objInsert_ne (o : JObj) (k key : String) (v : JVal) (h : k ≠ key) :
    lookupJ (objInsert o k v) key = lookupJ o key := by
  induction o with
  | nil => simp [objInsert, lookupJ_cons, lookupJ_nil, h]
  | cons p rest ih =>
      by_cases hp : p.1 = k
      · have hpkey : p.1 ≠ key := by rw [hp]; exact h
        simp [objInsert, hp, lookupJ_cons, h, hpkey]
      · simp [objInsert, hp, lookupJ_cons, ih]

theorem mem_keys_objInsert (o : JObj) (k key : String) (v : JVal) :
    key ∈ (objInsert o k v).map Prod.fst ↔ key ∈ o.map Prod.fst ∨ key = k := by
  induction o with
  | nil => simp [objInsert]
  | cons p rest ih =>
      by_cases hp : p.1 = k
      · simp [objInsert, hp]
        tauto
      · simp [objInsert, hp, ih]
        tauto

theorem nodup_keys_objInsert (o : JObj) (k : String) (v : JVal)
    (h : (o.map Prod.fst).Nodup) : ((objInsert o k v).map Prod.fst).Nodup := by
  induction o with
  | nil => simp [objInsert]
  | cons p rest ih =>
      rw [List.map_cons, List.nodup_cons] at h
      by_cases hp : p.1 = k
      · rw [objInsert, if_pos (by simpa using hp)]
        simp only [List.map_cons, List.nodup_cons]
        exact ⟨by rw [← hp]; exact h.1, h.2⟩
      · rw [objInsert, if_neg (by simpa using hp)]
        simp only [List.map_cons, List.nodup_cons]
        refine ⟨?_, ih h.2⟩
        rw [mem_keys_objInsert]
        rintro (hmem | hkey)
        · exact h.1 hmem
        · exact hp hkey

theorem lookupJ_mergeExtras_not_mem (extras : JObj) :
    ∀ (payload : JObj) (key : String), key ∉ extras.map Prod.fst →
      lookupJ (mergeExtras payload extras) key = lookupJ payload key := by
  induction extras with
  | nil => intro payload key _; rfl
  | cons p rest ih =>
      intro payload key hkey
      rw [List.map_cons, List.mem_cons] at hkey
      push_neg at hkey
      unfold mergeExtras
      rw [List.foldl_cons]
      have hrec := ih (objInsert payload p.1 p.2) key hkey.2
      unfold mergeExtras at hrec
      rw [hrec, lookupJ_objInsert_ne _ _ _ _ (Ne.symm hkey.1)]

theorem nodup_keys_mergeExtras (extras : JObj) :
    ∀ payload : JObj, (payload.map Prod.fst).Nodup →
      ((mergeExtras payload extras).map Prod.fst).Nodup := by
  induction extras with
  | nil => intro payload h; exact h
  | cons p rest ih =>
      intro payload h
      unfold mergeExtras
      rw [List.foldl_cons]
      exact ih (objInsert payload p.1 p.2) (nodup_keys_objInsert _ _ _ h)

theorem lookupJ_middle_ne (k : String) (v : JVal) (key : String) (h : k ≠ key) :
    ∀ pre post : JObj,
      lookupJ (pre ++ (k, v) :: post) key = lookupJ (pre ++ post) key := by
  intro pre post
  induction pre with
  | nil =>
      rw [List.nil_append, List.nil_append, lookupJ_cons,
        if_neg (by simpa using h)]
  | cons a pre ih =>
      rw [List.cons_append, List.cons_append, lookupJ_cons, lookupJ_cons, ih]

/-! ### Dropped values are skipped by both input channels -/

theorem buildLoopStep_dropped (source : String) (idx : Nat) (acc : JObj × JObj)
    (k : String) (v : JVal) (hv : isDroppedValue v = true) :
    buildLoopStep source idx acc (k, v) = .ok acc := by
  unfold buildLoopStep
  by_cases hk : k == "message"
  · rw [if_pos hk]
  · rw [if_neg hk]
    dsimp only
    rw [hv]
    simp

theorem foldlM_buildLoop_middle_dropped (source : String) (idx : Nat) (k : String)
    (v : JVal) (hv : isDroppedValue v = true) (pre post : JObj) :
    ∀ acc, (pre ++ (k, v) :: post).foldlM (buildLoopStep source idx) acc =
      (pre ++ post).foldlM (buildLoopStep source idx) acc := by
  induction pre with
  | nil =>
      intro acc
      rw [List.nil_append, List.nil_append, List.foldlM_cons,
        buildLoopStep_dropped _ _ _ _ _ hv]
      rfl
  | cons a pre ih =>
      intro acc
      rw [List.cons_append, List.cons_append, List.foldlM_cons, List.foldlM_cons]
      cases ha : buildLoopStep source idx acc a with
      | error e => rfl
      | ok acc1 => exact ih acc1

theorem buildStructuredStep_dropped (parse : String → Option JVal) (idx : Nat)
    (constructed : JObj) (k : String) (v : JVal) (hv : isDroppedValue v = true) :
    buildStructuredStep parse idx constructed (k, v) = .ok constructed := by
  unfold buildStructuredStep
  dsimp only
  rw [hv]
  simp

theorem foldlM_structured_middle_dropped (parse : String → Option JVal) (idx : Nat)
    (k : String) (v : JVal) (hv : isDroppedValue v = true) (pre post : JObj) :
    ∀ acc, (pre ++ (k, v) :: post).foldlM (buildStructuredStep parse idx) acc =
      (pre ++ post).foldlM (buildStructuredStep parse idx) acc := by
  induction pre with
  | nil =>
      intro acc
      rw [List.nil_append, List.nil_append, List.foldlM_cons,
        buildStructuredStep_dropped _ _ _ _ _ hv]
      rfl
  | cons a pre ih =>
      intro acc
      rw [List.cons_append, List.cons_append, List.foldlM_cons, List.foldlM_cons]
      cases ha : buildStructuredStep parse idx acc a with
      | error e => rfl
      | ok acc1 => exact ih acc1

/-- Witness for C4 at a concrete failing input: an empty message fails the
build with the item's index and no request is issued. -/
theorem build_failure_no_network_witness :
    ({ message := "Field \"message\" cannot be empty", itemIndex := some 7 } :
        NodeError).itemIndex = some 7 ∧
    (processItemRun "https://b" 30000 pfNone netOkEmpty itemBadParams 7).1 = none ∧
    (processItemRun "https://b" 30000 pfNone netOkEmpty itemBadParams 7).2 =
      .error { message := "Field \"message\" cannot be empty", itemIndex := some 7 } :=
  build_failure_no_network "https://b" 30000 pfNone netOkEmpty itemBadParams 7
    { message := "Field \"message\" cannot be empty", itemIndex := some 7 } rfl

/-! ### Classification facts about the field schema -/

theorem contains_mem {l : List String} {a : String} (h : l.contains a = true) : a ∈ l :=
  List.elem_iff.mp h

theorem mem_contains {l : List String} {a : String} (h : a ∈ l) : l.contains a = true :=
  List.elem_iff.mpr h

theorem message_not_optional : "message" ∉ OPTIONAL_FIELDS := by decide

theorem reserved_normalize : ∀ k ∈ RESERVED_PAYLOAD_KEYS,
    RESERVED_PAYLOAD_KEYS.contains (normalizeFieldKey k) = true := by decide

theorem normalizeOptionalField_some (k nk : String)
    (h : normalizeOptionalField k = some nk) :
    nk ∈ OPTIONAL_FIELDS ∧ nk = normalizeFieldKey k := by
  unfold normalizeOptionalField at h
  split at h
  · rename_i hc
    cases h
    exact ⟨contains_mem hc, rfl⟩
  · exact Option.noConfusion h

/-! ### Loop invariants of the payload builder -/

theorem buildLoopStep_ok_props (source : String) (idx : Nat) (acc acc1 : JObj × JObj)
    (kv : String × JVal) (h : buildLoopStep source idx acc kv = .ok acc1) :
    (∀ k, k ∈ acc1.2.map Prod.fst →
      k ∈ acc.2.map Prod.fst ∨ (normalizeOptionalField k = none ∧ k ≠ "message")) ∧
    (∀ k, k ∈ acc1.1.map Prod.fst → k ∈ acc.1.map Prod.fst ∨ k ∈ OPTIONAL_FIELDS) ∧
    ((acc.1.map Prod.fst).Nodup → (acc1.1.map Prod.fst).Nodup) ∧
    ((acc.2.map Prod.fst).Nodup → (acc1.2.map Prod.fst).Nodup) ∧
    lookupJ acc1.1 "message" = lookupJ acc.1 "message" := by
  by_cases hmsgB : (kv.1 == "message") = true
  · unfold buildLoopStep at h
    rw [if_pos hmsgB] at h
    cases h
    exact ⟨fun k hk => Or.inl hk, fun k hk => Or.inl hk, id, id, rfl⟩
  · by_cases hdropB : isDroppedValue kv.2 = true
    · unfold buildLoopStep at h
      rw [if_neg hmsgB, if_pos hdropB] at h
      cases h
      exact ⟨fun k hk => Or.inl hk, fun k hk => Or.inl hk, id, id, rfl⟩
    · unfold buildLoopStep at h
      rw [if_neg hmsgB, if_neg hdropB] at h
      split at h
      · rename_i optionalKey hnorm
        have hopt := normalizeOptionalField_some _ _ hnorm
        have hne : optionalKey ≠ "message" := by
          intro hcontra
          exact message_not_optional (hcontra ▸ hopt.1)
        split at h
        · split at h
          · cases h
            refine ⟨fun k hk => Or.inl hk, ?_, ?_, id, ?_⟩
            · intro k hk
              rcases (mem_keys_objInsert _ _ _ _).mp hk with hmem | hkeq
              · exact Or.inl hmem
              · exact Or.inr (hkeq ▸ hopt.1)
            · intro hnd
              exact nodup_keys_objInsert _ _ _ hnd
            · exact lookupJ_objInsert_ne _ _ _ _ hne
          · exact Except.noConfusion h
        · split at h
          · cases h
            refine ⟨fun k hk => Or.inl hk, ?_, ?_, id, ?_⟩
            · intro k hk
              rcases (mem_keys_objInsert _ _ _ _).mp hk with hmem | hkeq
              · exact Or.inl hmem
              · exact Or.inr (hkeq ▸ hopt.1)
            · intro hnd
              exact nodup_keys_objInsert _ _ _ hnd
            · exact lookupJ_objInsert_ne _ _ _ _ hne
          · exact Except.noConfusion h
      · rename_i hnone
        cases h
        refine ⟨?_, fun k hk => Or.inl hk, id, ?_, rfl⟩
        · intro k hk
          rcases (mem_keys_objInsert _ _ _ _).mp hk with hmem | hkeq
          · exact Or.inl hmem
          · subst hkeq
            refine Or.inr ⟨hnone, ?_⟩
            intro hcontra
            exact hmsgB (by simpa using hcontra)
        · intro hnd
          exact nodup_keys_objInsert _ _ _ hnd

theorem buildLoop_props (source : String) (idx : Nat) :
    ∀ (l : JObj) (acc res : JObj × JObj),
      l.foldlM (buildLoopStep source idx) acc = .ok res →
      (∀ k, k ∈ res.2.map Prod.fst →
        k ∈ acc.2.map Prod.fst ∨ (normalizeOptionalField k = none ∧ k ≠ "message")) ∧
      (∀ k, k ∈ res.1.map Prod.fst → k ∈ acc.1.map Prod.fst ∨ k ∈ OPTIONAL_FIELDS) ∧
      ((acc.1.map Prod.fst).Nodup → (res.1.map Prod.fst).Nodup) ∧
      ((acc.2.map Prod.fst).Nodup → (res.2.map Prod.fst).Nodup) ∧
      lookupJ res.1 "message" = lookupJ acc.1 "message" := by
  intro l
  induction l with
  | nil =>
      intro acc res h
      rw [List.foldlM_nil] at h
      have hres : Except.ok acc = (Except.ok res : Except NodeError (JObj × JObj)) := h
      cases hres
      exact ⟨fun k hk => Or.inl hk, fun k hk => Or.inl hk, id, id, rfl⟩
  | cons a l ih =>
      intro acc res h
      rw [List.foldlM_cons] at h
      cases ha : buildLoopStep source idx acc a with
      | error e =>
          rw [ha] at h
          exact Except.noConfusion h
      | ok acc1 =>
          rw [ha] at h
          have h2 : l.foldlM (buildLoopStep source idx) acc1 = .ok res := h
          obtain ⟨e1, e2, e3, e4, e5⟩ := buildLoopStep_ok_props source idx acc acc1 a ha
          obtain ⟨i1, i2, i3, i4, i5⟩ := ih acc1 res h2
          refine ⟨?_, ?_, fun hnd => i3 (e3 hnd), fun hnd => i4 (e4 hnd), i5.trans e5⟩
          · intro k hk
            rcases i1 k hk with hmem | hprop
            · exact e1 k hmem
            · exact Or.inr hprop
          · intro k hk
            rcases i2 k hk with hmem | hopt
            · exact e2 k hmem
            · exact Or.inr hopt

theorem assertNoReservedConflicts_ok_not_reserved (source : String) (extras : JObj)
    (idx : Nat) (u : Unit) (h : assertNoReservedConflicts source extras idx = .ok u) :
    ∀ k ∈ extras.map Prod.fst, RESERVED_PAYLOAD_KEYS.contains k = false := by
  intro k hk
  cases hck : RESERVED_PAYLOAD_KEYS.contains k with
  | false => rfl
  | true =>
      exfalso
      have hnorm : RESERVED_PAYLOAD_KEYS.contains (normalizeFieldKey k) = true :=
        reserved_normalize k (contains_mem hck)
      have hkc : k ∈ reservedConflicts extras := by
        unfold reservedConflicts
        exact List.mem_filter.mpr ⟨hk, hnorm⟩
      unfold assertNoReservedConflicts at h
      split at h
      · exact Except.noConfusion h
      · rename_i hlen
        exact hlen (List.length_pos_of_mem hkc)

/-- Everything `buildPayloadFromObject` guarantees on success: the result is
the merge of the canonical phase with the extras, its keys are unique, the
`message` entry holds the trimmed validated message, reserved keys are
untouched by the extras merge, and no extras key is reserved. -/
theorem buildPayloadFromObject_ok_props (input : JObj) (source : String)
    (idx : Nat) (p : JObj) (h : buildPayloadFromObject input source idx = .ok p) :
    (p.map Prod.fst).Nodup ∧
    ∃ m acc,
      ensureMessage (lookupJ input "message") idx = .ok m ∧
      input.foldlM (buildLoopStep source idx)
        ([("message", JVal.str m)], ([] : JObj)) = .ok acc ∧
      p = mergeExtras acc.1 acc.2 ∧
      lookupJ p "message" = some (.str m) ∧
      (∀ k, RESERVED_PAYLOAD_KEYS.contains k = true → lookupJ p k = lookupJ acc.1 k) ∧
      (∀ k ∈ acc.2.map Prod.fst, RESERVED_PAYLOAD_KEYS.contains k = false) := by
  unfold buildPayloadFromObject at h
  split at h
  · exact Except.noConfusion h
  next m hm =>
    split at h
    · exact Except.noConfusion h
    next acc hf =>
      split at h
      · exact Except.noConfusion h
      next u hconf =>
        cases h
        obtain ⟨p1, _p2, p3, _p4, p5⟩ := buildLoop_props source idx input _ _ hf
        have hextras : ∀ k ∈ acc.2.map Prod.fst,
            RESERVED_PAYLOAD_KEYS.contains k = false :=
          assertNoReservedConflicts_ok_not_reserved _ _ _ _ hconf
        have hreserved : ∀ k, RESERVED_PAYLOAD_KEYS.contains k = true →
            lookupJ (mergeExtras acc.1 acc.2) k = lookupJ acc.1 k := by
          intro k hkres
          refine lookupJ_mergeExtras_not_mem _ _ _ ?_
          intro hkmem
          rw [hextras k hkmem] at hkres
          exact Bool.noConfusion hkres
        have hmsglookup : lookupJ (mergeExtras acc.1 acc.2) "message" = some (.str m) := by
          rw [hreserved "message" (by decide), p5, lookupJ_cons]
          simp
        refine ⟨?_, m, acc, hm, hf, rfl, hmsglookup, hreserved, hextras⟩
        refine nodup_keys_mergeExtras _ _ (p3 ?_)
        simp

/-- **C9.** Every payload produced by `buildPayloadFromObject` has pairwise
distinct keys, and the extras merge never overwrites a canonical field: the
`message` entry holds exactly the validated trimmed message, every
reserved-key entry is exactly what the canonical validation phase produced
(never an extension-supplied value), and no extension key is reserved. -/
theorem payload_keys_unique_canonical_preserved (input : JObj) (source : String)
    (idx : Nat) (p : JObj) (h : buildPayloadFromObject input source idx = .ok p) :
    (p.map Prod.fst).Nodup ∧
    ∃ m acc,
      ensureMessage (lookupJ input "message") idx = .ok m ∧
      input.foldlM (buildLoopStep source idx)
        ([("message", JVal.str m)], ([] : JObj)) = .ok acc ∧
      p = mergeExtras acc.1 acc.2 ∧
      lookupJ p "message" = some (.str m) ∧
      (∀ k, RESERVED_PAYLOAD_KEYS.contains k = true → lookupJ p k = lookupJ acc.1 k) ∧
      (∀ k ∈ acc.2.map Prod.fst, RESERVED_PAYLOAD_KEYS.contains k = false) :=
  buildPayloadFromObject_ok_props input source idx p h

/-- Witness for C9: a build with an optional field and an extension field. -/
theorem payload_keys_unique_canonical_preserved_witness :
    (([("message", JVal.str "hi"), ("email", JVal.str "a@b"), ("custom", JVal.num 3)] :
        JObj).map Prod.fst).Nodup ∧
    ∃ m acc,
      ensureMessage
        (lookupJ [("message", JVal.str " hi "), ("email", JVal.str "a@b"),
          ("custom", JVal.num 3)] "message") 2 = .ok m ∧
      ([("message", JVal.str " hi "), ("email", JVal.str "a@b"),
          ("custom", JVal.num 3)] : JObj).foldlM (buildLoopStep "Body JSON" 2)
        ([("message", JVal.str m)], ([] : JObj)) = .ok acc ∧
      ([("message", JVal.str "hi"), ("email", JVal.str "a@b"), ("custom", JVal.num 3)] :
        JObj) = mergeExtras acc.1 acc.2 ∧
      lookupJ [("message", JVal.str "hi"), ("email", JVal.str "a@b"),
        ("custom", JVal.num 3)] "message" = some (.str m) ∧
      (∀ k, RESERVED_PAYLOAD_KEYS.contains k = true →
        lookupJ [("message", JVal.str "hi"), ("email", JVal.str "a@b"),
          ("custom", JVal.num 3)] k = lookupJ acc.1 k) ∧
      (∀ k ∈ acc.2.map Prod.fst, RESERVED_PAYLOAD_KEYS.contains k = false) :=
  payload_keys_unique_canonical_preserved
    [("message", JVal.str " hi "), ("email", JVal.str "a@b"), ("custom", JVal.num 3)]
    "Body JSON" 2
    [("message", JVal.str "hi"), ("email", JVal.str "a@b"), ("custom", JVal.num 3)] rfl

/-- **C5 counterexample.** The claim predicts that an extension key equal to
an optional canonical name up to case (here `"Email"` vs the reserved
`"email"`) fails the item. The code compares `FIELD_ALIASES[key.toLowerCase()]
?? key` — for a key that is not an alias, the original case-sensitive key —
so `"Email"` passes the conflict check and flows into the payload. -/
theorem reserved_conflict_case_sensitivity_counterexample :
    jsToLower "Email" = "email" ∧
    RESERVED_PAYLOAD_KEYS.contains "email" = true ∧
    assertNoReservedConflicts "Extra fields JSON" [("Email", JVal.str "x")] 0 = .ok () ∧
    buildPayloadFromObject [("message", JVal.str "hi"), ("Email", JVal.str "x")]
        "Body JSON" 0 =
      .ok [("message", JVal.str "hi"), ("Email", JVal.str "x")] :=
  ⟨rfl, rfl, rfl, rfl⟩

/-- **C5 (amended).** The conflict check fails exactly when some extras key,
after alias normalization (`FIELD_ALIASES[key.toLowerCase()] ?? key`, which is
case-insensitive only for aliased spellings), is exactly a reserved key; the
error carries the item index and lists all conflicting keys, comma-joined,
not just the first. -/
theorem reserved_conflicts_exact_normalized (source : String) (extras : JObj) (idx : Nat) :
    ((∃ e, assertNoReservedConflicts source extras idx = .error e) ↔
      ∃ k, k ∈ extras.map Prod.fst ∧
        RESERVED_PAYLOAD_KEYS.contains (normalizeFieldKey k) = true) ∧
    (∀ e, assertNoReservedConflicts source extras idx = .error e →
      e.itemIndex = some idx ∧
      e.message = source ++ " contains reserved keys: " ++
        String.intercalate ", " (reservedConflicts extras)) ∧
    (∀ k, k ∈ reservedConflicts extras ↔
      (k ∈ extras.map Prod.fst ∧
        RESERVED_PAYLOAD_KEYS.contains (normalizeFieldKey k) = true)) := by
  have hmem : ∀ k, k ∈ reservedConflicts extras ↔
      (k ∈ extras.map Prod.fst ∧
        RESERVED_PAYLOAD_KEYS.contains (normalizeFieldKey k) = true) := by
    intro k
    unfold reservedConflicts
    exact List.mem_filter
  refine ⟨⟨?_, ?_⟩, ?_, hmem⟩
  · rintro ⟨e, he⟩
    unfold assertNoReservedConflicts at he
    split at he
    · rename_i hlen
      cases hc : reservedConflicts extras with
      | nil => rw [hc] at hlen; simp at hlen
      | cons k rest =>
          have hk : k ∈ reservedConflicts extras := by
            rw [hc]
            exact List.mem_cons_self _ _
          exact ⟨k, (hmem k).mp hk⟩
    · exact Except.noConfusion he
  · rintro ⟨k, hk, hres⟩
    have hkf : k ∈ reservedConflicts extras := (hmem k).mpr ⟨hk, hres⟩
    unfold assertNoReservedConflicts
    split
    · exact ⟨_, rfl⟩
    · rename_i hlen
      exact absurd (List.length_pos_of_mem hkf) hlen
  · intro e he
    unfold assertNoReservedConflicts at he
    split at he
    · cases he
      exact ⟨rfl, rfl⟩
    · exact Except.noConfusion he

/-- Witness for the amended C5: an aliased spelling of a reserved key inside
an extras object yields the listing error with the item index. -/
theorem reserved_conflicts_exact_normalized_witness :
    ({ message := "X contains reserved keys: PageUrl", itemIndex := some 4 } :
        NodeError).itemIndex = some 4 ∧
    ({ message := "X contains reserved keys: PageUrl", itemIndex := some 4 } :
        NodeError).message =
      "X" ++ " contains reserved keys: " ++
        String.intercalate ", " (reservedConflicts [("PageUrl", JVal.str "x")]) :=
  (reserved_conflicts_exact_normalized "X" [("PageUrl", JVal.str "x")] 4).2.1 _ rfl

/-! ### Message validation (C6) -/

theorem dropWhile_replicate_a (n : Nat) :
    List.dropWhile isJsWhitespace (List.replicate n 'a') = List.replicate n 'a' := by
  cases n with
  | zero => rfl
  | succ m =>
      rw [List.replicate_succ, List.dropWhile_cons]
      have hws : isJsWhitespace 'a' = false := rfl
      rw [hws]
      simp

theorem jsTrim_bigMessage : jsTrim bigMessage = bigMessage := by
  unfold jsTrim bigMessage
  rw [show (String.mk (List.replicate 5001 'a')).toList = List.replicate 5001 'a' from rfl]
  rw [dropWhile_replicate_a, List.reverse_replicate, dropWhile_replicate_a,
    List.reverse_replicate]

theorem bigMessage_length : bigMessage.length = 5001 := by
  show (List.replicate 5001 'a').length = 5001
  rw [List.length_replicate]

theorem bigMessage_ne_empty : bigMessage ≠ "" := by
  intro h
  have hlen := congrArg String.length h
  rw [bigMessage_length] at hlen
  exact absurd hlen (by decide)

theorem ensureMessage_ok_str (s : String) (idx : Nat) (t : String)
    (h : ensureMessage (some (.str s)) idx = .ok t) : t = jsTrim s ∧ jsTrim s ≠ "" := by
  unfold ensureMessage at h
  dsimp only at h
  split at h
  · exact Except.noConfusion h
  · rename_i hne
    cases h
    exact ⟨rfl, by simpa using hne⟩

/-- **C6 counterexample.** A 5001-character message passes validation: the
code enforces only "string with non-empty trim", with no 5000-character upper
bound, so "validation succeeds exactly when ... at most 5000 characters" is
false. -/
theorem message_length_unbounded_counterexample :
    ensureMessage (some (.str bigMessage)) 0 = .ok bigMessage ∧
    (jsTrim bigMessage).length = 5001 ∧ ¬ (jsTrim bigMessage).length ≤ 5000 := by
  have hb : (jsTrim bigMessage == "") = false := by
    rw [jsTrim_bigMessage]
    exact beq_eq_false_iff_ne.mpr bigMessage_ne_empty
  refine ⟨?_, ?_, ?_⟩
  · unfold ensureMessage
    dsimp only
    rw [hb]
    simp [jsTrim_bigMessage]
  · rw [jsTrim_bigMessage, bigMessage_length]
  · rw [jsTrim_bigMessage, bigMessage_length]
    omega

/-- **C6 (amended).** Message validation succeeds exactly when the supplied
`message` is a string whose trimmed form is non-empty (there is no length
cap); on success the validated value — and the `message` entry of the built
payload — is the trimmed string, and on failure the error names the `message`
field and carries the item's index. -/
theorem message_validation_trim_nonempty (v : Option JVal) (idx : Nat) :
    ((∃ t, ensureMessage v idx = .ok t) ↔ ∃ s, v = some (.str s) ∧ jsTrim s ≠ "") ∧
    (∀ s, v = some (.str s) → jsTrim s ≠ "" → ensureMessage v idx = .ok (jsTrim s)) ∧
    (∀ input source p s, lookupJ input "message" = some (.str s) →
      buildPayloadFromObject input source idx = .ok p →
      lookupJ p "message" = some (.str (jsTrim s))) ∧
    (∀ e, ensureMessage v idx = .error e →
      e.itemIndex = some idx ∧
      (e.message = "Field \"message\" must be provided as a string" ∨
       e.message = "Field \"message\" cannot be empty")) := by
  refine ⟨⟨?_, ?_⟩, ?_, ?_, ?_⟩
  · rintro ⟨t, ht⟩
    unfold ensureMessage at ht
    split at ht
    · split at ht
      · exact Except.noConfusion ht
      · rename_i s hne
        exact ⟨s, rfl, by simpa using hne⟩
    · exact Except.noConfusion ht
  · rintro ⟨s, rfl, hne⟩
    have hb : (jsTrim s == "") = false := beq_eq_false_iff_ne.mpr hne
    refine ⟨jsTrim s, ?_⟩
    unfold ensureMessage
    dsimp only
    rw [hb]
    simp
  · intro s hveq hne
    subst hveq
    have hb : (jsTrim s == "") = false := beq_eq_false_iff_ne.mpr hne
    unfold ensureMessage
    dsimp only
    rw [hb]
    simp
  · intro input source p s hlook hbuild
    obtain ⟨_, m, acc, hm, _, _, hmsg, _, _⟩ :=
      buildPayloadFromObject_ok_props input source idx p hbuild
    rw [hlook] at hm
    obtain ⟨hmt, _⟩ := ensureMessage_ok_str _ _ _ hm
    rw [hmsg, hmt]
  · intro e he
    unfold ensureMessage at he
    split at he
    · split at he
      · cases he
        exact ⟨rfl, Or.inr rfl⟩
      · exact Except.noConfusion he
    · cases he
      exact ⟨rfl, Or.inl rfl⟩

/-- Witness for the amended C6: the spec's own scenario, a padded message is
trimmed and accepted. -/
theorem message_validation_trim_nonempty_witness :
    ensureMessage (some (.str "  Need running shoes  ")) 0 =
      .ok (jsTrim "  Need running shoes  ") :=
  (message_validation_trim_nonempty (some (.str "  Need running shoes  ")) 0).2.1
    "  Need running shoes  " rfl (by decide)

/-! ### Batch parameters (C7) -/

/-- **C7 counterexample.** A configured timeout of 400 seconds is not clamped
down to 300 seconds: the code passes 400000 ms to the request, while the
claimed clamp to `[5, 300]` would give 300000 ms. -/
theorem timeout_not_upper_clamped_counterexample :
    timeoutMsOf (some 400) = 400000 ∧
    1000 * max 5 (min 300 (400 : Int)) = 300000 ∧
    timeoutMsOf (some 400) ≠ 1000 * max 5 (min 300 (400 : Int)) := by
  refine ⟨by decide, by decide, by decide⟩

/-- **C7 (amended).** The effective concurrency limit is the configured value
clamped to `[1, 50]` (default 4, and any in-range value is taken as-is); the
effective per-call timeout is the configured seconds value clamped from below
at 5 seconds only (default 30 s, no upper clamp), and every request built by
`processItemBuild` carries exactly that timeout. -/
theorem effective_params_clamping :
    (∀ m : Option Int, 1 ≤ concurrencyLimitOf m ∧ concurrencyLimitOf m ≤ 50) ∧
    concurrencyLimitOf none = 4 ∧
    (∀ m : Int, 1 ≤ m → m ≤ 50 → concurrencyLimitOf (some m) = m) ∧
    (∀ t : Option Int, 5000 ≤ timeoutMsOf t) ∧
    timeoutMsOf none = 30000 ∧
    (∀ t : Int, 5 ≤ t → timeoutMsOf (some t) = 1000 * t) ∧
    (∀ (baseUrl : String) (timeoutMs : Int) (parse : String → Option JVal)
        (p : ItemParams) (idx : Nat) (req : HttpRequest),
      processItemBuild baseUrl timeoutMs parse p idx = .ok req →
      req.timeoutMs = timeoutMs) := by
  refine ⟨?_, by decide, ?_, ?_, by decide, ?_, ?_⟩
  · intro m
    unfold concurrencyLimitOf
    constructor
    · exact le_max_left _ _
    · apply max_le
      · decide
      · exact le_trans (min_le_left _ _) (by norm_num)
  · intro m h1 h50
    unfold concurrencyLimitOf
    have hm0 : ¬ (m = 0) := by omega
    simp [Option.getD, hm0]
    omega
  · intro t
    unfold timeoutMsOf
    exact le_max_left _ _
  · intro t ht
    unfold timeoutMsOf
    simp [Option.getD]
    omega
  · intro baseUrl timeoutMs parse p idx req h
    unfold processItemBuild at h
    split at h
    · exact Except.noConfusion h
    · split at h
      · exact Except.noConfusion h
      · cases h
        rfl

/-- Witness for the amended C7 at concrete parameters. -/
theorem effective_params_clamping_witness :
    concurrencyLimitOf (some 7) = 7 ∧ timeoutMsOf (some 60) = 1000 * 60 :=
  ⟨effective_params_clamping.2.2.1 7 (by decide) (by decide),
   effective_params_clamping.2.2.2.2.2.1 60 (by decide)⟩

/-! ### Empty/null/omitted collapse (C8) -/

/-- **C8 counterexample.** In structured mode the reserved-key conflict check
on the free-form `extraFieldsJson` object runs before null/empty dropping
(lines 520-523), so supplying `pageUrl: null` there fails the item while
omitting it succeeds — the two do not produce identical payloads. -/
theorem null_reserved_extra_not_omitted_counterexample :
    buildStructuredBody pfNone (.str "x")
        [("extraFieldsJson", .obj [("pageUrl", JVal.null)])] 0 =
      .error (opError "Extra fields JSON contains reserved keys: pageUrl" 0) ∧
    buildStructuredBody pfNone (.str "x") [("extraFieldsJson", .obj [])] 0 =
      .ok [("message", JVal.str "x")] ∧
    buildStructuredBody pfNone (.str "x")
        [("extraFieldsJson", .obj [("pageUrl", JVal.null)])] 0 ≠
      buildStructuredBody pfNone (.str "x") [("extraFieldsJson", .obj [])] 0 := by
  have h1 : buildStructuredBody pfNone (.str "x")
      [("extraFieldsJson", .obj [("pageUrl", JVal.null)])] 0 =
      .error (opError "Extra fields JSON contains reserved keys: pageUrl" 0) := rfl
  have h2 : buildStructuredBody pfNone (.str "x") [("extraFieldsJson", .obj [])] 0 =
      .ok [("message", JVal.str "x")] := rfl
  exact ⟨h1, h2, fun hcontra => Except.noConfusion (h1.symm.trans (hcontra.trans h2))⟩

/-- **C8 (amended).** Supplying the empty string, null, or omitting a field
produce identical sanitized payloads for the raw-JSON object (any non-message
key) and for the structured additional-fields collection; only a reserved key
inside the free-form `extraFieldsJson` object escapes this collapse, because
its conflict check precedes value dropping (see the counterexample). -/
theorem empty_null_omitted_collapse (source : String) (idx : Nat) (k : String) (v : JVal)
    (hk : k ≠ "message") (hv : isDroppedValue v = true) :
    (∀ pre post : JObj,
      buildPayloadFromObject (pre ++ (k, v) :: post) source idx =
      buildPayloadFromObject (pre ++ post) source idx) ∧
    (∀ (parse : String → Option JVal) (rawMessage : JVal) (pre post : JObj),
      buildStructuredBody parse rawMessage (pre ++ (k, v) :: post) idx =
      buildStructuredBody parse rawMessage (pre ++ post) idx) := by
  constructor
  · intro pre post
    unfold buildPayloadFromObject
    rw [lookupJ_middle_ne k v "message" hk pre post]
    cases hm : ensureMessage (lookupJ (pre ++ post) "message") idx with
    | error e => rfl
    | ok m =>
        dsimp only
        rw [foldlM_buildLoop_middle_dropped source idx k v hv pre post]
  · intro parse rawMessage pre post
    unfold buildStructuredBody
    cases hm : ensureMessage (some rawMessage) idx with
    | error e => rfl
    | ok m =>
        dsimp only
        unfold buildConstructed
        rw [foldlM_structured_middle_dropped parse idx k v hv pre post]

/-- Witness for the amended C8: a null extension value in the raw object
behaves as if the field were omitted. -/
theorem empty_null_omitted_collapse_witness :
    buildPayloadFromObject [("message", JVal.str "hi"), ("note", JVal.null)]
        "Body JSON" 0 =
      buildPayloadFromObject [("message", JVal.str "hi")] "Body JSON" 0 :=
  (empty_null_omitted_collapse "Body JSON" 0 "note" JVal.null (by decide) rfl).1
    [("message", JVal.str "hi")] []

/-! ### Dispatcher machine: invariant preservation -/

theorem concurrencyLimitOf_pos (m : Option Int) : 1 ≤ concurrencyLimitOf m := by
  unfold concurrencyLimitOf
  exact le_max_left _ _

theorem launchEffect_pos_loop (c : RunCfg) (k : Nat) (s : DState) (k2 : Nat)
    (h : (launchEffect c k s).pos = .atLoop k2) :
    k2 = k + 1 ∧ s.executing.length + 1 < c.concurrencyLimit := by
  unfold launchEffect at h
  dsimp only at h
  split at h
  · exact MainPos.noConfusion h
  · rename_i hcond
    cases h
    exact ⟨rfl, by omega⟩

theorem launchEffect_pos_race (c : RunCfg) (k : Nat) (s : DState) (k2 : Nat)
    (h : (launchEffect c k s).pos = .inRace k2) : k2 = k := by
  unfold launchEffect at h
  dsimp only at h
  split at h
  · cases h; rfl
  · exact MainPos.noConfusion h

theorem launchEffect_pos_cases (c : RunCfg) (k : Nat) (s : DState) :
    (launchEffect c k s).pos = .inRace k ∨ (launchEffect c k s).pos = .atLoop (k + 1) := by
  unfold launchEffect
  dsimp only
  split
  · exact Or.inl rfl
  · exact Or.inr rfl

theorem completeEffect_pend (c : RunCfg) (i : Nat) (s : DState) (e : ThrownError)
    (h : (completeEffect c i s).pendingErr = some e) :
    s.pendingErr = some e ∨
    (c.continueOnFail = false ∧ c.outcome i = .error e.inner ∧ e.itemIndex = i) := by
  unfold completeEffect at h
  dsimp only at h
  split at h
  · rename_i e1 hout hcof
    cases hpe : s.pendingErr with
    | some p =>
        rw [hpe, Option.getD_some] at h
        cases h
        exact Or.inl rfl
    | none =>
        rw [hpe, Option.getD_none] at h
        cases h
        exact Or.inr ⟨hcof, hout, rfl⟩
  · exact Or.inl h

theorem dinv_init (c : RunCfg) (hC : 1 ≤ c.concurrencyLimit) : DInv c (initState c) := by
  constructor
  · exact List.length_replicate _ _
  · exact List.nodup_nil
  · intro i hi
    exact absurd hi (List.not_mem_nil i)
  · rfl
  · exact Nat.zero_le _
  · exact Nat.zero_le _
  · intro k hk
    cases hk
    exact ⟨rfl, hC, Nat.zero_le _⟩
  · intro k hk
    exact MainPos.noConfusion hk
  · intro hk
    exact MainPos.noConfusion hk
  · intro i hi
    show (List.replicate c.N (none : Option OutRec))[i]? =
      some (if i < ([] : List Nat).length ∧ i ∉ ([] : List Nat) then slotValue c i else none)
    rw [List.getElem?_replicate, if_pos hi, if_neg (by simp)]
  · intro e he
    exact Option.noConfusion he
  · intro e he
    exact MainPos.noConfusion he
  · intro out hout
    exact MainPos.noConfusion hout

theorem dinv_step (c : RunCfg) (s s2 : DState)
    (inv : DInv c s) (hstep : DStep c s s2) : DInv c s2 := by
  cases hstep with
  | launch k hpos hk =>
      obtain ⟨hhlen, hexlt, _⟩ := inv.pos_loop k hpos
      have hknot : k ∉ s.executing := by
        intro hmem
        have := inv.exec_mem k hmem
        omega
      have hlen1 : (s.history ++ [k]).length = s.history.length + 1 := by simp
      constructor
      · exact inv.resp_len
      · show (s.executing ++ [k]).Nodup
        rw [List.nodup_append]
        refine ⟨inv.exec_nodup, List.nodup_singleton k, ?_⟩
        intro a ha hb
        rw [List.mem_singleton] at hb
        subst hb
        exact hknot ha
      · show ∀ i ∈ s.executing ++ [k], i < (s.history ++ [k]).length
        intro i hi
        rw [hlen1]
        rcases List.mem_append.mp hi with hmem | hsing
        · have := inv.exec_mem i hmem
          omega
        · rw [List.mem_singleton] at hsing
          omega
      · show s.history ++ [k] = List.range (s.history ++ [k]).length
        rw [hlen1, List.range_succ, ← inv.hist_eq, hhlen]
      · show (s.history ++ [k]).length ≤ c.N
        rw [hlen1]
        omega
      · show (s.executing ++ [k]).length ≤ c.concurrencyLimit
        rw [List.length_append]
        simp only [List.length_singleton]
        omega
      · intro k2 hp2
        obtain ⟨hk2, hlt⟩ := launchEffect_pos_loop c k s k2 hp2
        subst hk2
        refine ⟨?_, ?_, by omega⟩
        · show (s.history ++ [k]).length = k + 1
          rw [hlen1]
          omega
        · show (s.executing ++ [k]).length < c.concurrencyLimit
          rw [List.length_append]
          simp only [List.length_singleton]
          omega
      · intro k2 hp2
        have hk2 := launchEffect_pos_race c k s k2 hp2
        rw [hk2]
        show (s.history ++ [k]).length = k + 1
        rw [hlen1]
        omega
      · intro hp2
        rcases launchEffect_pos_cases c k s with hcase | hcase <;> rw [hcase] at hp2 <;>
          exact MainPos.noConfusion hp2
      · intro i hi
        show s.responses[i]? =
          some (if i < (s.history ++ [k]).length ∧ i ∉ s.executing ++ [k]
            then slotValue c i else none)
        rw [inv.slots i hi, hlen1]
        congr 1
        by_cases hik : i = k
        · subst hik
          rw [if_neg (fun hcond => absurd hcond.1 (by omega)),
            if_neg (fun hcond =>
              hcond.2 (List.mem_append_right _ (List.mem_singleton_self i)))]
        · have hiff : (i < s.history.length ∧ i ∉ s.executing) ↔
              (i < s.history.length + 1 ∧ i ∉ s.executing ++ [k]) := by
            constructor
            · rintro ⟨h1, h2⟩
              refine ⟨by omega, fun hm => ?_⟩
              rcases List.mem_append.mp hm with hm1 | hm2
              · exact h2 hm1
              · rw [List.mem_singleton] at hm2
                exact hik hm2
            · rintro ⟨h1, h2⟩
              refine ⟨by omega, fun hm => h2 (List.mem_append_left _ hm)⟩
          exact if_congr hiff rfl rfl
      · intro e he
        exact inv.pend e he
      · intro e he
        rcases launchEffect_pos_cases c k s with hcase | hcase <;> rw [hcase] at he <;>
          exact MainPos.noConfusion he
      · intro out hout
        rcases launchEffect_pos_cases c k s with hcase | hcase <;> rw [hcase] at hout <;>
          exact MainPos.noConfusion hout
  | loopExit k hpos hk =>
      obtain ⟨hhlen, _, hkN⟩ := inv.pos_loop k hpos
      constructor
      · exact inv.resp_len
      · exact inv.exec_nodup
      · exact inv.exec_mem
      · exact inv.hist_eq
      · exact inv.hist_le
      · exact inv.exec_bound
      · intro k2 h2
        exact MainPos.noConfusion h2
      · intro k2 h2
        exact MainPos.noConfusion h2
      · intro _
        show s.history.length = c.N
        omega
      · exact inv.slots
      · exact inv.pend
      · intro e he
        exact MainPos.noConfusion he
      · intro out hout
        exact MainPos.noConfusion hout
  | complete i hi =>
      have hiN : i < c.N := by
        have h1 := inv.exec_mem i hi
        have h2 := inv.hist_le
        omega
      have hilen : i < s.responses.length := by
        rw [inv.resp_len]
        exact hiN
      constructor
      · show (s.responses.set i (slotValue c i)).length = c.N
        rw [List.length_set]
        exact inv.resp_len
      · exact inv.exec_nodup.erase i
      · intro j hj
        exact inv.exec_mem j (List.mem_of_mem_erase hj)
      · exact inv.hist_eq
      · exact inv.hist_le
      · show (s.executing.erase i).length ≤ c.concurrencyLimit
        exact le_trans (List.erase_sublist i s.executing).length_le inv.exec_bound
      · intro k2 h2
        obtain ⟨ha, hb, hc2⟩ := inv.pos_loop k2 h2
        exact ⟨ha, Nat.lt_of_le_of_lt (List.erase_sublist i s.executing).length_le hb, hc2⟩
      · exact inv.pos_race
      · exact inv.pos_all
      · intro j hj
        show (s.responses.set i (slotValue c i))[j]? =
          some (if j < s.history.length ∧ j ∉ s.executing.erase i
            then slotValue c j else none)
        by_cases hij : j = i
        · subst hij
          rw [List.getElem?_set_self', List.getElem?_eq_getElem hilen]
          rw [if_pos ⟨inv.exec_mem j hi, fun hmem =>
            ((inv.exec_nodup.mem_erase_iff).mp hmem).1 rfl⟩]
          rfl
        · rw [List.getElem?_set_ne (fun he => hij he.symm), inv.slots j hj]
          congr 1
          exact if_congr (and_congr Iff.rfl
            (not_congr (List.mem_erase_of_ne hij).symm)) rfl rfl
      · intro e he
        rcases completeEffect_pend c i s e he with hpe | ⟨hcof, hout, hidx⟩
        · exact inv.pend e hpe
        · refine ⟨hcof, ?_, ?_⟩
          · rw [hidx]
            exact hiN
          · rw [hidx]
            exact hout
      · exact inv.pos_thrown
      · intro out hout
        obtain ⟨_, hexec, _⟩ := inv.pos_ret out hout
        rw [hexec] at hi
        exact absurd hi (List.not_mem_nil i)
  | raceResolve k hpos hlt =>
      obtain hk1 := inv.pos_race k hpos
      constructor
      · exact inv.resp_len
      · exact inv.exec_nodup
      · exact inv.exec_mem
      · exact inv.hist_eq
      · exact inv.hist_le
      · exact inv.exec_bound
      · intro k2 h2
        have : MainPos.atLoop (k + 1) = MainPos.atLoop k2 := h2
        cases this
        refine ⟨hk1, hlt, ?_⟩
        have := inv.hist_le
        omega
      · intro k2 h2
        exact MainPos.noConfusion h2
      · intro h2
        exact MainPos.noConfusion h2
      · exact inv.slots
      · exact inv.pend
      · intro e he
        exact MainPos.noConfusion he
      · intro out hout
        exact MainPos.noConfusion hout
  | raceReject k e hpos hpend =>
      constructor
      · exact inv.resp_len
      · exact inv.exec_nodup
      · exact inv.exec_mem
      · exact inv.hist_eq
      · exact inv.hist_le
      · exact inv.exec_bound
      · intro k2 h2
        exact MainPos.noConfusion h2
      · intro k2 h2
        exact MainPos.noConfusion h2
      · intro h2
        exact MainPos.noConfusion h2
      · exact inv.slots
      · exact inv.pend
      · intro e2 he2
        have : MainPos.thrown e = MainPos.thrown e2 := he2
        cases this
        exact inv.pend e hpend
      · intro out hout
        exact MainPos.noConfusion hout
  | allResolve hpos hexec hpend =>
      constructor
      · exact inv.resp_len
      · exact inv.exec_nodup
      · exact inv.exec_mem
      · exact inv.hist_eq
      · exact inv.hist_le
      · exact inv.exec_bound
      · intro k2 h2
        exact MainPos.noConfusion h2
      · intro k2 h2
        exact MainPos.noConfusion h2
      · intro h2
        exact MainPos.noConfusion h2
      · exact inv.slots
      · exact inv.pend
      · intro e he
        exact MainPos.noConfusion he
      · intro out hout
        have : MainPos.returned (s.responses.filterMap id) = MainPos.returned out := hout
        cases this
        exact ⟨inv.pos_all hpos, hexec, rfl⟩
  | allReject e hpos hpend =>
      constructor
      · exact inv.resp_len
      · exact inv.exec_nodup
      · exact inv.exec_mem
      · exact inv.hist_eq
      · exact inv.hist_le
      · exact inv.exec_bound
      · intro k2 h2
        exact MainPos.noConfusion h2
      · intro k2 h2
        exact MainPos.noConfusion h2
      · intro h2
        exact MainPos.noConfusion h2
      · exact inv.slots
      · exact inv.pend
      · intro e2 he2
        have : MainPos.thrown e = MainPos.thrown e2 := he2
        cases this
        exact inv.pend e hpend
      · intro out hout
        exact MainPos.noConfusion hout

theorem reaches_inv (c : RunCfg) (hC : 1 ≤ c.concurrencyLimit) (s : DState)
    (h : Reaches c s) : DInv c s := by
  unfold Reaches at h
  induction h with
  | refl => exact dinv_init c hC
  | tail _hab hbc ih => exact dinv_step c _ _ ih hbc

/-! ### Batch-level claims -/

/-- **C1.** In tolerant (continue-on-fail) mode, whatever order the per-item
tasks settle in (`Reaches` quantifies over every interleaving of the step
relation), a run that returns yields exactly one output record per input
item, in input-index order: record `i` is item `i`'s verbatim success
response or its structured error record, carrying `pairedItem` index `i`. -/
theorem execute_tolerant_order_preserved (c : RunCfg) (hC : 1 ≤ c.concurrencyLimit)
    (hTol : c.continueOnFail = true) (s : DState) (out : List OutRec)
    (hs : Reaches c s) (hret : s.pos = .returned out) :
    out = (List.range c.N).map (tolerantRecord c) := by
  have inv := reaches_inv c hC s hs
  obtain ⟨hhist, hexec, hout⟩ := inv.pos_ret out hret
  have hslot : ∀ i, slotValue c i = some (tolerantRecord c i) := by
    intro i
    unfold slotValue tolerantRecord
    cases c.outcome i with
    | ok r => rfl
    | error e =>
        dsimp only
        rw [hTol]
        simp
  have hresp : s.responses = (List.range c.N).map (fun i => some (tolerantRecord c i)) := by
    apply List.ext_getElem?
    intro n
    by_cases hn : n < c.N
    · rw [inv.slots n hn,
        if_pos ⟨by omega, by rw [hexec]; exact List.not_mem_nil n⟩,
        List.getElem?_map, List.getElem?_range hn, hslot n]
      rfl
    · have h1 : s.responses.length ≤ n := by
        rw [inv.resp_len]
        omega
      have h2 : ((List.range c.N).map (fun i => some (tolerantRecord c i))).length ≤ n := by
        simp
        omega
      rw [List.getElem?_eq_none h1, List.getElem?_eq_none h2]
  rw [hout, hresp, List.filterMap_map]
  show List.filterMap (some ∘ tolerantRecord c) (List.range c.N) =
    List.map (tolerantRecord c) (List.range c.N)
  rw [List.filterMap_eq_map]

/-- Witness for C1: a full tolerant run of one healthy item through the
dispatch loop, settling to the single success record. -/
theorem execute_tolerant_order_preserved_witness :
    [successRecord 0 (JVal.obj [])] =
      (List.range cfgTolOne.N).map (tolerantRecord cfgTolOne) := by
  have h0 : Reaches cfgTolOne (initState cfgTolOne) := Relation.ReflTransGen.refl
  have h1 := h0.tail (DStep.launch (initState cfgTolOne) 0 rfl (by decide))
  have h2 := h1.tail (DStep.complete _ 0 (by decide))
  have h3 := h2.tail (DStep.raceResolve _ 0 rfl (by decide))
  have h4 := h3.tail (DStep.loopExit _ 1 rfl (by decide))
  have h5 := h4.tail (DStep.allResolve _ rfl rfl rfl)
  exact execute_tolerant_order_preserved cfgTolOne (by decide) rfl _ _ h5 rfl

/-- **C2.** In every reachable state of every run: at most the effective
concurrency limit of per-item tasks are simultaneously outstanding, every
outstanding task was already launched, and the launch history is exactly
`0, 1, 2, ...` — tasks are admitted in input-index order, never exceeding
the batch length. -/
theorem execute_concurrency_bound_and_admission_order (c : RunCfg)
    (hC : 1 ≤ c.concurrencyLimit) (s : DState) (hs : Reaches c s) :
    s.executing.length ≤ c.concurrencyLimit ∧
    s.history = List.range s.history.length ∧
    s.history.length ≤ c.N ∧
    (∀ i ∈ s.executing, i < s.history.length) := by
  have inv := reaches_inv c hC s hs
  exact ⟨inv.exec_bound, inv.hist_eq, inv.hist_le, inv.exec_mem⟩

/-- Witness for C2 at a concrete mid-run state with one task in flight. -/
theorem execute_concurrency_bound_and_admission_order_witness :
    failFastThrownState.executing.length ≤ cfgFailFast.concurrencyLimit ∧
    failFastThrownState.history = List.range failFastThrownState.history.length ∧
    failFastThrownState.history.length ≤ cfgFailFast.N ∧
    (∀ i ∈ failFastThrownState.executing, i < failFastThrownState.history.length) := by
  have h0 : Reaches cfgFailFast (initState cfgFailFast) := Relation.ReflTransGen.refl
  have h1 := h0.tail (DStep.launch (initState cfgFailFast) 0 rfl (by decide))
  have h2 := h1.tail (DStep.launch _ 1 rfl (by decide))
  have h3 := h2.tail (DStep.complete _ 1 (by decide))
  exact execute_concurrency_bound_and_admission_order cfgFailFast (by decide)
    failFastThrownState h3

/-- The fail-fast run in which item 1's validation rejection settles while
item 0's network call is still outstanding, and `Promise.race` rethrows it. -/
theorem failFast_reaches : Reaches cfgFailFast failFastFinalState := by
  have h0 : Reaches cfgFailFast (initState cfgFailFast) := Relation.ReflTransGen.refl
  have h1 := h0.tail (DStep.launch (initState cfgFailFast) 0 rfl (by decide))
  have h2 := h1.tail (DStep.launch _ 1 rfl (by decide))
  have h3 := h2.tail (DStep.complete _ 1 (by decide))
  exact h3.tail (DStep.raceReject _ 1 failFastError rfl rfl)

/-- **C3 counterexample.** A reachable fail-fast run state in which the
dispatcher has already thrown (the `Promise.race` await rethrows the first
settled rejection) while an already-admitted task (item 0) is still in
`executing` — refuting "the error is surfaced only after every
already-admitted per-item task has run to completion". -/
theorem failfast_error_before_drain_counterexample :
    Reaches cfgFailFast failFastFinalState ∧
    failFastFinalState.pos = .thrown failFastError ∧
    failFastFinalState.executing = [0] ∧
    failFastFinalState.executing ≠ [] ∧
    cfgFailFast.continueOnFail = false :=
  ⟨failFast_reaches, rfl, rfl, by decide, rfl⟩

/-- **C3 (amended).** In fail-fast mode, whenever the dispatcher throws, the
thrown error is a `NodeApiError` wrapping the terminal error of some item of
the batch together with that item's index, and the run's outcome is the
error alone — no output records are returned with it. The throw may happen
while already-admitted tasks are still in flight (see the counterexample);
the code does not wait for all admitted tasks to settle before surfacing
the rejection. -/
theorem failfast_throw_carries_item_error (c : RunCfg) (hC : 1 ≤ c.concurrencyLimit)
    (s : DState) (e : ThrownError) (hs : Reaches c s) (hthr : s.pos = .thrown e) :
    c.continueOnFail = false ∧ e.itemIndex < c.N ∧
    c.outcome e.itemIndex = .error e.inner ∧
    ∀ out, s.pos ≠ .returned out := by
  have inv := reaches_inv c hC s hs
  obtain ⟨h1, h2, h3⟩ := inv.pos_thrown e hthr
  refine ⟨h1, h2, h3, ?_⟩
  intro out hcontra
  rw [hthr] at hcontra
  exact MainPos.noConfusion hcontra

/-- Witness for the amended C3 at the concrete thrown run. -/
theorem failfast_throw_carries_item_error_witness :
    cfgFailFast.continueOnFail = false ∧ failFastError.itemIndex < cfgFailFast.N ∧
    cfgFailFast.outcome failFastError.itemIndex = .error failFastError.inner ∧
    ∀ out, failFastFinalState.pos ≠ .returned out :=
  failfast_throw_carries_item_error cfgFailFast (by decide) failFastFinalState
    failFastError failFast_reaches rfl

/-! ### Empty batch (C10) -/

theorem executeSetup_ok_props (b : BatchConfig) (rc : RunCfg)
    (h : executeSetup b = .ok rc) :
    rc.items = b.items ∧
    rc.concurrencyLimit = (concurrencyLimitOf b.maxConcurrencyParam).toNat ∧
    rc.continueOnFail = b.continueOnFail ∧
    rc.timeoutMs = timeoutMsOf b.timeoutSecondsParam := by
  unfold executeSetup at h
  split at h
  · exact Except.noConfusion h
  · split at h
    · exact Except.noConfusion h
    · cases h
      exact ⟨rfl, rfl, rfl, rfl⟩

theorem executeSetup_ok_exists (b : BatchConfig) (creds : Credentials)
    (hb : b.credentials = some creds)
    (hurl : stripTrailingSlashes creds.baseUrl ≠ "") :
    ∃ rc, executeSetup b = .ok rc := by
  unfold executeSetup
  rw [hb]
  dsimp only
  rw [if_neg (by simp [beq_eq_false_iff_ne.mpr hurl])]
  exact ⟨_, rfl⟩

/-- **C10 counterexample.** The non-empty base URL `"/"` strips to the empty
string, so `execute` throws a configuration error even on an empty batch —
refuting "with valid credentials and a non-empty base URL, execute throws
no error". -/
theorem slash_base_url_counterexample :
    slashBatchConfig.credentials = some { baseUrl := "/" } ∧
    "/" ≠ "" ∧ slashBatchConfig.items = [] ∧
    executeSetup slashBatchConfig =
      .error { message := "Base URL is missing in the credentials" } :=
  ⟨rfl, by decide, rfl, rfl⟩

/-- **C10 (amended).** For an empty batch with credentials present whose base
URL is non-empty after trailing-slash stripping, setup succeeds, and in both
tolerant and fail-fast modes every run of the dispatch loop launches no task
(hence performs no network request), never throws, and can only return the
empty output list. -/
theorem empty_batch_returns_empty (b : BatchConfig) (creds : Credentials)
    (hb : b.credentials = some creds)
    (hurl : stripTrailingSlashes creds.baseUrl ≠ "") (hitems : b.items = []) :
    (∃ rc, executeSetup b = .ok rc) ∧
    ∀ rc, executeSetup b = .ok rc →
      rc.items = [] ∧
      ∀ s, Reaches rc s →
        s.history = [] ∧ (∀ e, s.pos ≠ .thrown e) ∧
        (∀ out, s.pos = .returned out → out = []) := by
  refine ⟨executeSetup_ok_exists b creds hb hurl, ?_⟩
  intro rc hrc
  obtain ⟨hrcitems, hrcC, _, _⟩ := executeSetup_ok_props b rc hrc
  have hitems0 : rc.items = [] := by rw [hrcitems, hitems]
  have hN0 : rc.N = 0 := by
    unfold RunCfg.N
    rw [hitems0]
    rfl
  refine ⟨hitems0, ?_⟩
  intro s hs
  have hC : 1 ≤ rc.concurrencyLimit := by
    rw [hrcC]
    have := concurrencyLimitOf_pos b.maxConcurrencyParam
    omega
  have inv := reaches_inv rc hC s hs
  refine ⟨?_, ?_, ?_⟩
  · have h1 := inv.hist_le
    rw [hN0] at h1
    have h2 : s.history.length = 0 := by omega
    rw [inv.hist_eq, h2]
    rfl
  · intro e he
    obtain ⟨_, hlt, _⟩ := inv.pos_thrown e he
    rw [hN0] at hlt
    omega
  · intro out hout
    obtain ⟨_, _, hfm⟩ := inv.pos_ret out hout
    have hresp : s.responses = [] := by
      have hl := inv.resp_len
      rw [hN0] at hl
      exact List.eq_nil_of_length_eq_zero hl
    rw [hfm, hresp]
    rfl

/-- Witness for the amended C10 at a concrete empty batch. -/
theorem empty_batch_returns_empty_witness :
    (∃ rc, executeSetup emptyBatchConfig = .ok rc) ∧
    ∀ rc, executeSetup emptyBatchConfig = .ok rc →
      rc.items = [] ∧
      ∀ s, Reaches rc s →
        s.history = [] ∧ (∀ e, s.pos ≠ .thrown e) ∧
        (∀ out, s.pos = .returned out → out = []) :=
  empty_batch_returns_empty emptyBatchConfig { baseUrl := "https://app.getchatads.com" }
    rfl (by decide) rfl

end ChatAdsNode
